import Mathlib

/-!
Verification of the fitrs FITS reader (`src/fits.rs`).

Shallow embedding conventions:
* bytes (`u8`) are `Nat` values `< 256`;
* Rust `String`s built by pushing `u8 as char` are `List Char` via `Char.ofNat`;
* machine integers (`i16`, `i32`) are `Int` with explicit wrapping where the
  source casts (`as i16`, `as usize`);
* code paths that can `panic!` (out-of-bounds indexing, `unwrap`/`expect` on
  `None`) are made explicit through the `Res` type;
* `f64` values are not interpreted: `HeaderValue::RealFloatingNumber` keeps the
  accepted literal (no claim depends on the floating-point value, only on
  whether `f64::from_str` accepts the sub-field).
-/

namespace Fitrs

/-- Outcome of running Rust code that may panic (out-of-bounds index,
`unwrap`/`expect` on `None`). `panicked` models the process abort. -/
inductive Res (α : Type) where
  | panicked : Res α
  | ok : α → Res α
deriving DecidableEq, Repr

/-! Byte constants from the source (`'=' as u8` etc.). -/

/-- ASCII code of the equals sign (`EQUAL_U8`). -/
def EQUAL_U8 : Nat := 61
/-- ASCII code of the space character (`SPACE_U8`). -/
def SPACE_U8 : Nat := 32
/-- ASCII code of the slash (`SLASH_U8`). -/
def SLASH_U8 : Nat := 47
/-- ASCII code of the single quote (`QUOTE_U8`). -/
def QUOTE_U8 : Nat := 39
/-- ASCII code of the capital letter T (`T_U8`). -/
def T_U8 : Nat := 84
/-- ASCII code of the capital letter F (`F_U8`). -/
def F_U8 : Nat := 70

/-- `HeaderValue` from the source. `CharacterString` holds the pushed chars as
a `List Char`; `RealFloatingNumber` holds the accepted literal (see module
comment); the complex constructors are never produced by the parser (known gap
in the source). -/
inductive HeaderValue where
  | CharacterString : List Char → HeaderValue
  | Logical : Bool → HeaderValue
  | IntegerNumber : Int → HeaderValue
  | RealFloatingNumber : List Char → HeaderValue
  | ComplexIntegerNumber : Int → Int → HeaderValue
  | ComplexFloatingNumber : List Char → List Char → HeaderValue
deriving DecidableEq, Repr

/-- The character-accumulation loop of `HeaderValue::new_character_string`:
state is (remaining bytes, enumeration index `i`, `prev_single_quote`,
`white_space_count`, accumulated string `s`). -/
def csLoop : List Nat → Nat → Bool → Nat → List Char → List Char
  | [], _, _, _, s => s
  | c :: rest, i, prevQ, ws, s =>
    if prevQ then
      if c = QUOTE_U8 then csLoop rest (i + 1) false ws (s ++ [Char.ofNat c])
      else s
    else if c = QUOTE_U8 then csLoop rest (i + 1) true ws s
    else if 0 < i ∧ c = SPACE_U8 then csLoop rest (i + 1) false (ws + 1) s
    else csLoop rest (i + 1) false 0 (s ++ List.replicate ws (Char.ofNat SPACE_U8) ++ [Char.ofNat c])

/-- `HeaderValue::new_character_string`. The source reads `subcard[0]`
unconditionally, which panics (index out of bounds) on an empty sub-field. -/
def HeaderValue.new_character_string (subcard : List Nat) : Res (Option HeaderValue) :=
  match subcard with
  | [] => .panicked
  | c0 :: rest =>
    if c0 ≠ QUOTE_U8 then .ok none
    else .ok (some (.CharacterString (csLoop rest 0 false 0 [])))

/-- The fixed column of the logical constant: `30 - 10 - 1` in the source. -/
def logicalConstantColumn : Nat := 30 - 10 - 1

/-- The scanning loop of `HeaderValue::new_logical`: `i` is the enumeration
index, `b` the current boolean. -/
def logicalLoop : List Nat → Nat → Bool → Option HeaderValue
  | [], _, b => some (.Logical b)
  | c :: rest, i, b =>
    if i = logicalConstantColumn then
      if c = T_U8 then logicalLoop rest (i + 1) true
      else if c = F_U8 then logicalLoop rest (i + 1) false
      else none
    else if c ≠ SPACE_U8 then none
    else logicalLoop rest (i + 1) b

/-- `HeaderValue::new_logical`. -/
def HeaderValue.new_logical (value : List Nat) : Option HeaderValue :=
  logicalLoop value 0 false

/-- ASCII whitespace bytes trimmed by Rust `str::trim` (the non-ASCII
white-space code points cannot appear in an ASCII-validated byte slice). -/
def isAsciiWhitespaceByte (c : Nat) : Bool :=
  c = 9 || c = 10 || c = 11 || c = 12 || c = 13 || c = 32

/-- Rust `str::trim` on an ASCII byte slice. -/
def trimBytes (s : List Nat) : List Nat :=
  ((s.dropWhile isAsciiWhitespaceByte).reverse.dropWhile isAsciiWhitespaceByte).reverse

/-- ASCII decimal digit test. -/
def isDigitByte (c : Nat) : Bool := decide (48 ≤ c ∧ c ≤ 57)

/-- Value of a nonempty all-digit byte string, `none` otherwise. -/
def digitsVal? (s : List Nat) : Option Nat :=
  match s with
  | [] => none
  | l =>
    if l.all isDigitByte then some (l.foldl (fun acc c => acc * 10 + (c - 48)) 0)
    else none

/-- Smallest `i32` value. -/
def i32Min : Int := -(2 ^ 31)
/-- Largest `i32` value. -/
def i32Max : Int := 2 ^ 31 - 1

/-- `i32::from_str_radix(s, 10)`: optional sign, nonempty digits, and the
value must fit in `i32` (overflow is an error, mapped to `none` by `.ok()`). -/
def from_str_radix_10 (s : List Nat) : Option Int :=
  let signDigits : Int × List Nat :=
    match s with
    | 43 :: rest => (1, rest)
    | 45 :: rest => (-1, rest)
    | _ => (1, s)
  match digitsVal? signDigits.2 with
  | none => none
  | some n =>
    let v : Int := signDigits.1 * (n : Int)
    if i32Min ≤ v ∧ v ≤ i32Max then some v else none

/-- `HeaderValue::new_integer`. `from_utf8` is modelled as ASCII validation:
every byte considered by the claims is ASCII, and a non-ASCII byte makes both
the real parse and this model reject the sub-field (the exotic case of valid
multi-byte UTF-8 whitespace around digits is not modelled). -/
def HeaderValue.new_integer (value : List Nat) : Option HeaderValue :=
  if value.all (fun c => c < 128) then
    (from_str_radix_10 (trimBytes value)).map .IntegerNumber
  else none

/-- Exponent part of the `f64::from_str` grammar: empty, or `e`/`E`, optional
sign, nonempty digits and nothing else. -/
def expAccepts : List Nat → Bool
  | [] => true
  | c :: r =>
    if c = 101 ∨ c = 69 then
      let r2 : List Nat :=
        match r with
        | 43 :: t => t
        | 45 :: t => t
        | t => t
      !(r2.takeWhile isDigitByte).isEmpty && (r2.dropWhile isDigitByte).isEmpty
    else false

/-- Number part of the `f64::from_str` grammar:
`digits ['.' digits?] [exp]` or `'.' digits [exp]`. -/
def floatBodyAccepts (s : List Nat) : Bool :=
  let ds := s.takeWhile isDigitByte
  let rest := s.dropWhile isDigitByte
  if ds.isEmpty then
    match rest with
    | 46 :: r2 =>
      !(r2.takeWhile isDigitByte).isEmpty && expAccepts (r2.dropWhile isDigitByte)
    | _ => false
  else
    match rest with
    | 46 :: r2 => expAccepts (r2.dropWhile isDigitByte)
    | r => expAccepts r

/-- Lower-case an ASCII byte. -/
def toLowerByte (c : Nat) : Nat := if 65 ≤ c ∧ c ≤ 90 then c + 32 else c

/-- Acceptance of the full `f64::from_str` grammar: optional sign, then
`inf`/`infinity`/`nan` (case-insensitive) or a number. -/
def floatAccepts (s : List Nat) : Bool :=
  let body : List Nat :=
    match s with
    | 43 :: r => r
    | 45 :: r => r
    | r => r
  let lower := body.map toLowerByte
  lower == [105, 110, 102] ||
    lower == [105, 110, 102, 105, 110, 105, 116, 121] ||
    lower == [110, 97, 110] ||
    floatBodyAccepts body

/-- `HeaderValue::new_real_floating`: keeps the accepted literal (the IEEE
value is never consulted by the code under verification). -/
def HeaderValue.new_real_floating (value : List Nat) : Option HeaderValue :=
  if value.all (fun c => c < 128) then
    let trimmed := trimBytes value
    if floatAccepts trimmed then
      some (.RealFloatingNumber (trimmed.map Char.ofNat))
    else none
  else none

/-- `HeaderValue::new`: the fixed priority chain
string → logical → integer → real. Only the character-string attempt can
panic (it indexes the sub-field unconditionally). -/
def HeaderValue.new (value : List Nat) : Res (Option HeaderValue) :=
  match HeaderValue.new_character_string value with
  | .panicked => .panicked
  | .ok (some v) => .ok (some v)
  | .ok none =>
    .ok ((HeaderValue.new_logical value).orElse fun _ =>
      (HeaderValue.new_integer value).orElse fun _ =>
        HeaderValue.new_real_floating value)

/-- `HeaderValueComment` record: optional typed value, optional comment. -/
structure HeaderValueComment where
  value : Option HeaderValue
  comment : Option (List Char)
deriving DecidableEq, Repr

/-- Characters trimmed by Rust `String::trim` when every char came from a
`u8` (`u8 as char` is Latin-1, so U+0085 and U+00A0 can occur). -/
def isRustWhitespaceChar (c : Char) : Bool :=
  c.toNat = 9 || c.toNat = 10 || c.toNat = 11 || c.toNat = 12 ||
    c.toNat = 13 || c.toNat = 32 || c.toNat = 133 || c.toNat = 160

/-- Rust `String::trim` on chars pushed from bytes. -/
def trimChars (s : List Char) : List Char :=
  ((s.dropWhile isRustWhitespaceChar).reverse.dropWhile isRustWhitespaceChar).reverse

/-- `HeaderValueComment::new`: split the 70-byte value/comment field on `/`;
the first segment (always present) is the value sub-field, the second (between
the first and second `/`, if any) the comment, trimmed. -/
def HeaderValueComment.new (value_comment : List Nat) : Res HeaderValueComment :=
  let value_slice := value_comment.takeWhile (fun c => c != SLASH_U8)
  let comment_slice : Option (List Nat) :=
    if value_comment.any (fun c => c == SLASH_U8) then
      some (((value_comment.dropWhile (fun c => c != SLASH_U8)).drop 1).takeWhile
        (fun c => c != SLASH_U8))
    else none
  match HeaderValue.new value_slice with
  | .panicked => .panicked
  | .ok v =>
    .ok { value := v
          comment := comment_slice.map fun slice => trimChars (slice.map Char.ofNat) }

/-- `CardImage::to_header_key_value` on an 80-byte card: keyword is bytes
0..8 truncated at the first blank; a value is parsed only when bytes 8..10
are `"= "`. -/
def to_header_key_value (card : List Nat) :
    Res (Option (String × Option HeaderValueComment)) :=
  let keyword := card.take 8
  let value_comment := (card.drop 10).take 70
  let key : String := String.mk ((keyword.takeWhile (fun c => c != SPACE_U8)).map Char.ofNat)
  if key = "" then .ok none
  else if card.get? 8 = some EQUAL_U8 ∧ card.get? 9 = some SPACE_U8 then
    match HeaderValueComment.new value_comment with
    | .panicked => .panicked
    | .ok val => .ok (some (key, some val))
  else .ok (some (key, none))

/-- The test helper `CardImage::from`: a string of at most 80 chars padded
with blanks to an 80-byte card. -/
def cardImageFrom (s : String) : List Nat :=
  s.toList.map Char.toNat ++ List.replicate (80 - s.length) SPACE_U8

/-! The `Hdu` data type and its header-derived quantities. The source struct
also owns the shared file handle and the decoded-data cache slot; the file is
passed explicitly where needed and the cache slot is modelled by the
interleaving model further below. -/

/-- `Hdu`: parsed header (in read order) plus the byte offset of its data
section. -/
structure Hdu where
  header : List (String × Option HeaderValueComment)
  data_start : Nat
deriving DecidableEq, Repr

/-- The lookup loop of `Hdu::value`: first entry with a matching keyword wins
and its (possibly absent) value is returned immediately. -/
def hduValueLoop : List (String × Option HeaderValueComment) → String → Option HeaderValue
  | [], _ => none
  | line :: rest, key =>
    if line.1 = key then line.2.bind fun value_comment => value_comment.value
    else hduValueLoop rest key

/-- `Hdu::value`. -/
def Hdu.value (hdu : Hdu) (key : String) : Option HeaderValue :=
  hduValueLoop hdu.header key

/-- `Hdu::value_as_integer_number`. -/
def Hdu.value_as_integer_number (hdu : Hdu) (key : String) : Option Int :=
  (hdu.value key).bind fun val =>
    match val with
    | .IntegerNumber n => some n
    | _ => none

/-- Rust `as usize` on an `i32` value (64-bit target): wrap modulo `2^64`. -/
def usizeOfInt (k : Int) : Nat := (k % (2 ^ 64 : Int)).toNat

/-- The axis-collection loop of `Hdu::naxis`: `for i in 1..(naxis + 1)` read
`NAXISi`; the absence of any axis keyword aborts with `None`. `remaining`
counts the iterations left (`naxis + 1 - i`), giving structural recursion. -/
def axesLoop (hdu : Hdu) : Nat → Nat → Option (List Nat)
  | _, 0 => some []
  | i, remaining + 1 =>
    match hdu.value_as_integer_number ("NAXIS" ++ toString i) with
    | none => none
    | some k => (axesLoop hdu (i + 1) remaining).map fun v => usizeOfInt k :: v

/-- `Hdu::naxis`: `None` when the `NAXIS` keyword is absent; a negative or
zero `NAXIS` yields the empty axis list (the Rust range `1..(naxis+1)` is then
empty). -/
def Hdu.naxis (hdu : Hdu) : Option (List Nat) :=
  (hdu.value_as_integer_number ("NAXIS")).bind fun naxis =>
    axesLoop hdu 1 naxis.toNat

/-- The accumulation loop of `Hdu::data_length`: `len` starts at `0`; the
axis at index `0` is added, every later axis multiplies. -/
def dataLengthLoop : List Nat → Nat → Nat → Nat
  | [], _, len => len
  | k :: rest, i, len => dataLengthLoop rest (i + 1) (if i = 0 then len + k else len * k)

/-- `Hdu::data_length`. -/
def Hdu.data_length (hdu : Hdu) : Option Nat :=
  hdu.naxis.map fun naxis => dataLengthLoop naxis 0 0

/-- `Hdu::data_byte_length`: element count times `|BITPIX| / 8`. (The `i32`
negation overflow at `i32::MIN`, a debug-build panic in Rust, is not
modelled: negation here is exact.) -/
def Hdu.data_byte_length (hdu : Hdu) : Option Nat :=
  hdu.data_length.bind fun len =>
    (hdu.value_as_integer_number ("BITPIX")).map fun bit =>
      let bit : Int := if bit < 0 then -bit else bit
      len * (bit.toNat / 8)

/-- The element count computed by `Hdu::inner_read_data_force`:
`self.naxis().expect("Get NAXIS")` panics when `NAXIS` is absent, then
`naxis.iter().product()` (empty product is `1`). -/
def Hdu.inner_read_data_count (hdu : Hdu) : Res Nat :=
  match hdu.naxis with
  | none => .panicked
  | some naxis => .ok naxis.prod

/-! The HDU scanner (`IterableOverHdu::read_next_hdu`). The file is a byte
list; the scanner reads 80-byte cards from a starting offset until the END
card has been seen and the card count is a multiple of 36. -/

/-- `read_exact` into an 80-byte buffer: fails (maps to end of iteration)
when fewer than 80 bytes remain at `pos`. -/
def readExact80 (file : List Nat) (pos : Nat) : Option (List Nat) :=
  if pos + 80 ≤ file.length then some ((file.drop pos).take 80) else none

/-- The header-reading loop of `read_next_hdu`:
`while (line_count % 36) != 0 || !end`. `fuel` bounds the iterations so the
recursion is structural; every iteration consumes 80 bytes of the file, so
`file.length + 1` iterations (the fuel used by `headerScan`) can never be
exhausted and the `fuel = 0` branch is unreachable from `headerScan`.
Result: `ok none` = EOF (iteration ends), `panicked` = card parsing panicked,
`ok (some (header, data_start))` = header complete. -/
def scanLoopFuel :
    Nat → List Nat → Nat → Nat → List (String × Option HeaderValueComment) → Bool →
    Res (Option (List (String × Option HeaderValueComment) × Nat))
  | fuel, file, pos, line_count, header, endSeen =>
    if line_count % 36 ≠ 0 ∨ endSeen = false then
      match readExact80 file pos with
      | none => .ok none
      | some card =>
        match to_header_key_value card with
        | .panicked => .panicked
        | .ok kv =>
          match fuel with
          | 0 => .ok none
          | fuel + 1 =>
            match kv with
            | none => scanLoopFuel fuel file (pos + 80) (line_count + 1) header endSeen
            | some (key, val) =>
              scanLoopFuel fuel file (pos + 80) (line_count + 1)
                (header ++ [(key, val)]) (endSeen || key == "END")
    else .ok (some (header, pos))

/-- The header-reading phase of `read_next_hdu`, with ample fuel. -/
def headerScan (file : List Nat) (pos : Nat) :
    Res (Option (List (String × Option HeaderValueComment) × Nat)) :=
  scanLoopFuel (file.length + 1) file pos 0 [] false

/-- The `while (next_position % (36 * 80)) != 0 { next_position += 1 }` loop;
`fuel = 36 * 80` steps always suffice. -/
def advanceLoop : Nat → Nat → Nat
  | 0, n => n
  | fuel + 1, n => if n % (36 * 80) ≠ 0 then advanceLoop fuel (n + 1) else n

/-- Advance an offset to the end of the current 2880-byte record. -/
def advanceToRecordEnd (n : Nat) : Nat := advanceLoop (36 * 80) n

/-- Result of one scanner invocation: end of file (`read_exact` failed), a
panic, or an `Hdu` plus the offset where the next HDU begins. -/
inductive ScanResult where
  | eof
  | panicked
  | ok (hdu : Hdu) (next : Nat)
deriving DecidableEq, Repr

/-- `IterableOverHdu::read_next_hdu`: read the header, then
`hdu.data_byte_length().unwrap()` (a panic when the length cannot be
computed), then round the next position up to the record boundary. -/
def read_next_hdu (file : List Nat) (position : Nat) : ScanResult :=
  match headerScan file position with
  | .panicked => .panicked
  | .ok none => .eof
  | .ok (some (header, data_start_position)) =>
    let hdu : Hdu := { header := header, data_start := data_start_position }
    match hdu.data_byte_length with
    | none => .panicked
    | some len => .ok hdu (advanceToRecordEnd (data_start_position + len))

/-! The shared HDU cache and the three iteration modes. The scanner is passed
as a function `scan : Nat → Option (Hdu × Nat)` standing for `read_next_hdu`
applied to the archive's file (the panic path is settled separately under
claim C4). -/

/-- The shared state of a `Fits` archive: the append-only `hdus` cache and
the `total_hdu_count` flag. -/
structure FitsState where
  hdus : List Hdu
  total_hdu_count : Option Nat
deriving DecidableEq, Repr

/-- Per-iterator state of `FitsIter` / `FitsIterMut`: a private scan offset
and the iterator's index. -/
structure IterState where
  position : Nat
  count : Nat
deriving DecidableEq, Repr

/-- Result of one `next` call on a reference iterator: the yielded element,
the updated shared and iterator state, and the number of scanner invocations
performed by this call. -/
structure IterStep where
  result : Option Hdu
  fits : FitsState
  iter : IterState
  scans : Nat
deriving DecidableEq, Repr

/-- The body shared by `Iterator for FitsIter` and `Iterator for FitsIterMut`
after the `total_hdu_count` short-circuit: serve from the cache when the
index is in range, otherwise invoke the scanner once. -/
def fitsIterNextBody (scan : Nat → Option (Hdu × Nat)) (fits : FitsState)
    (it : IterState) : IterStep :=
  if h : it.count < fits.hdus.length then
    ⟨some (fits.hdus.get ⟨it.count, h⟩), fits, ⟨it.position, it.count + 1⟩, 0⟩
  else
    match scan it.position with
    | some (hdu, next_position) =>
      ⟨some hdu, ⟨fits.hdus ++ [hdu], fits.total_hdu_count⟩,
        ⟨next_position, it.count + 1⟩, 1⟩
    | none =>
      ⟨none, ⟨fits.hdus, some it.count⟩, it, 1⟩

/-- `Iterator for FitsIter<'f>::next`. -/
def fitsIterNext (scan : Nat → Option (Hdu × Nat)) (fits : FitsState)
    (it : IterState) : IterStep :=
  match fits.total_hdu_count with
  | some hdu_count =>
    if it.count ≥ hdu_count then ⟨none, fits, it, 0⟩
    else fitsIterNextBody scan fits it
  | none => fitsIterNextBody scan fits it

/-- `Iterator for FitsIterMut<'f>::next` (same algorithm as the by-reference
iterator in the source, duplicated there verbatim). -/
def fitsIterMutNext (scan : Nat → Option (Hdu × Nat)) (fits : FitsState)
    (it : IterState) : IterStep :=
  match fits.total_hdu_count with
  | some hdu_count =>
    if it.count ≥ hdu_count then ⟨none, fits, it, 0⟩
    else fitsIterNextBody scan fits it
  | none => fitsIterNextBody scan fits it

/-- Result of one `next` call on the consuming iterator. -/
structure IntoIterStep where
  result : Option Hdu
  fits : FitsState
  position : Nat
  scans : Nat
deriving DecidableEq, Repr

/-- `Iterator for FitsIntoIter::next`: always calls `read_next_hdu`; the
archive's `hdus` cache and `total_hdu_count` (owned by the consumed `Fits`)
are never read or written. -/
def fitsIntoIterNext (scan : Nat → Option (Hdu × Nat)) (fits : FitsState)
    (position : Nat) : IntoIterStep :=
  match scan position with
  | some (hdu, next_position) => ⟨some hdu, fits, next_position, 1⟩
  | none => ⟨none, fits, position, 1⟩

/-! The 16-bit integer decode arm of `Hdu::read_data_force`. -/

/-- Rust `as i16` applied to an `i32` (`blank.unwrap() as i16`): truncate to
the low 16 bits, interpreted as two's complement. -/
def i16OfI32 (n : Int) : Int := (n + 32768) % 65536 - 32768

/-- One big-endian `i16` from two bytes. -/
def i16FromBytes (b0 b1 : Nat) : Int :=
  let u : Nat := b0 % 256 * 256 + b1 % 256
  if u < 32768 then (u : Int) else (u : Int) - 65536

/-- `read_i16_into::<BigEndian>` into a buffer of `len` elements: fails when
the bytes run out. -/
def readI16BE : List Nat → Nat → Option (List Int)
  | _, 0 => some []
  | b0 :: b1 :: rest, n + 1 => (readI16BE rest n).map fun l => i16FromBytes b0 b1 :: l
  | _, _ + 1 => none

/-- The `BITPIX = 16` arm of `Hdu::read_data_force`: read `len` big-endian
`i16`s; when a `BLANK` value is declared, every raw element equal to
`blank as i16` becomes `None`, the others `Some(n as i32)`; with no `BLANK`
every element is `Some`. -/
def decodeI16Arm (blank : Option Int) (bytes : List Nat) (len : Nat) :
    Option (List (Option Int)) :=
  (readI16BE bytes len).map fun buf =>
    match blank with
    | some blankValue => buf.map fun n => if n = i16OfI32 blankValue then none else some n
    | none => buf.map fun n => some n

/-! Interleaving model of the per-HDU decode cache (`Hdu::read_data` /
`read_data_force`). Two threads each run the straight-line program

  0: `is_data_cached()` — if the slot is full, return the cached array (done);
  1: decode the data section (one pass over the file);
  2: take the write lock and store the decoded array (replacing the slot);
  3: done.

The decoded array is abstracted as a value `v : Nat` (both threads decode the
same file, hence the same value); `decodeCount` counts decode passes. -/

/-- State of the two-thread decode race: the cache slot, the number of decode
passes performed, and each thread's program counter. -/
structure DecodeRace where
  cache : Option Nat
  decodeCount : Nat
  pc1 : Nat
  pc2 : Nat
deriving DecidableEq, Repr

/-- One atomic step of a single thread (see the program above). -/
def threadStep (v : Nat) (pc : Nat) (cache : Option Nat) (cnt : Nat) :
    Nat × Option Nat × Nat :=
  match pc with
  | 0 => if cache.isSome then (3, cache, cnt) else (1, cache, cnt)
  | 1 => (2, cache, cnt + 1)
  | 2 => (3, some v, cnt)
  | _ => (pc, cache, cnt)

/-- Scheduler step: `true` runs thread 1, `false` runs thread 2. -/
def raceStep (v : Nat) (s : DecodeRace) (t : Bool) : DecodeRace :=
  if t then
    let r := threadStep v s.pc1 s.cache s.decodeCount
    { s with pc1 := r.1, cache := r.2.1, decodeCount := r.2.2 }
  else
    let r := threadStep v s.pc2 s.cache s.decodeCount
    { s with pc2 := r.1, cache := r.2.1, decodeCount := r.2.2 }

/-- Run a schedule from a starting state. -/
def raceRun (v : Nat) (sched : List Bool) (s : DecodeRace) : DecodeRace :=
  sched.foldl (raceStep v) s

/-- Initial state: empty cache, no decodes, both threads at the check. -/
def raceInit : DecodeRace := ⟨none, 0, 0, 0⟩

/-! Concrete inputs used by the claim theorems. -/

/-- A sample parsed HDU (content irrelevant to the cache model). -/
def sampleHdu : Hdu := ⟨[], 2880⟩

/-- A one-HDU archive's scanner: an HDU at offset 0, EOF afterwards. -/
def scan0 : Nat → Option (Hdu × Nat) :=
  fun pos => if pos = 0 then some (sampleHdu, 2880) else none

/-- Header with `BITPIX = 8`, `NAXIS = 3`, axes 2, 3, 4. -/
def c2hdu : Hdu :=
  ⟨[("BITPIX", some ⟨some (.IntegerNumber 8), none⟩),
    ("NAXIS", some ⟨some (.IntegerNumber 3), none⟩),
    ("NAXIS1", some ⟨some (.IntegerNumber 2), none⟩),
    ("NAXIS2", some ⟨some (.IntegerNumber 3), none⟩),
    ("NAXIS3", some ⟨some (.IntegerNumber 4), none⟩)], 2880⟩

/-- Header with `BITPIX = 32`, `NAXIS = 2`, axes 10, 2 (the primary HDU of
the repository's test file). -/
def c3hdu : Hdu :=
  ⟨[("SIMPLE", some ⟨some (.Logical true), none⟩),
    ("BITPIX", some ⟨some (.IntegerNumber 32), none⟩),
    ("NAXIS", some ⟨some (.IntegerNumber 2), none⟩),
    ("NAXIS1", some ⟨some (.IntegerNumber 10), none⟩),
    ("NAXIS2", some ⟨some (.IntegerNumber 2), none⟩)], 2880⟩

/-- Header with the degenerate `NAXIS = 0`. -/
def c5hdu : Hdu :=
  ⟨[("BITPIX", some ⟨some (.IntegerNumber 8), none⟩),
    ("NAXIS", some ⟨some (.IntegerNumber 0), none⟩)], 2880⟩

/-- Header with `NAXIS = 2`, axes 3 and 4. -/
def c5bhdu : Hdu :=
  ⟨[("BITPIX", some ⟨some (.IntegerNumber 8), none⟩),
    ("NAXIS", some ⟨some (.IntegerNumber 2), none⟩),
    ("NAXIS1", some ⟨some (.IntegerNumber 3), none⟩),
    ("NAXIS2", some ⟨some (.IntegerNumber 4), none⟩)], 2880⟩

/-- First card of the `c4file` header block. -/
def c4card0 : List Nat := cardImageFrom ("SIMPLE  =                    T")
/-- Second card of the `c4file` header block. -/
def c4card1 : List Nat := cardImageFrom ("BITPIX  =                    8")
/-- Third card of the `c4file` header block: the END marker. -/
def c4card2 : List Nat := cardImageFrom ("END")
/-- An all-blank padding card. -/
def blankCard : List Nat := List.replicate 80 SPACE_U8

/-- A complete 2880-byte FITS file consisting of one header block whose
header declares `BITPIX` but no `NAXIS`. -/
def c4file : List Nat :=
  c4card0 ++ c4card1 ++ c4card2 ++ List.replicate (33 * 80) SPACE_U8

/-- The header records the scanner extracts from `c4file`. -/
def c4header : List (String × Option HeaderValueComment) :=
  [("SIMPLE", some ⟨some (.Logical true), none⟩),
   ("BITPIX", some ⟨some (.IntegerNumber 8), none⟩),
   ("END", none)]

/-- Contribution of a thread's program counter to the decode-count bound:
a thread at or past the write step has decoded at most once. -/
def pcContrib (pc : Nat) : Nat := if 2 ≤ pc then 1 else 0

/-- Drop trailing blanks from a byte string. -/
def rtrimSpaces (l : List Nat) : List Nat :=
  (l.reverse.dropWhile (fun c => c == SPACE_U8)).reverse

/-- Bytes to chars, as pushed by the source's string accumulation. -/
def charsOf (l : List Nat) : List Char := l.map Char.ofNat

/-- The character-string result for escape-free content: trailing blanks are
dropped, except that entirely blank nonempty content yields exactly one
space. -/
def stringResult (cs : List Nat) : List Char :=
  if cs ≠ [] ∧ cs.all (fun c => c == SPACE_U8) then [Char.ofNat SPACE_U8]
  else charsOf (rtrimSpaces cs)

/-! Claim-level decoding of a quoted character string, stated independently
of the source loop so that the source can be proved equivalent to it: the
content is first tokenized (escape and termination handling), then the
pending-blank rule is applied. -/

/-- A token of the string content: an ordinary byte, or an escaped (doubled)
quote. -/
inductive QTok where
  | byte : Nat → QTok
  | escQuote : QTok
deriving DecidableEq, Repr

/-- Tokenization of the content after the opening quote: a doubled single
quote is one escape token; the first unescaped single quote — including a
quote that is the final byte — terminates the content; every other byte is
an ordinary token. -/
def specToks : List Nat → List QTok
  | [] => []
  | [c] => if c = QUOTE_U8 then [] else [.byte c]
  | c :: c2 :: rest2 =>
    if c = QUOTE_U8 then
      if c2 = QUOTE_U8 then .escQuote :: specToks rest2 else []
    else .byte c :: specToks (c2 :: rest2)

/-- The pending-blank rule: a blank is held pending and the pending blanks
are emitted immediately before the next ordinary non-blank byte; an escaped
quote is emitted as one literal quote without flushing the pending blanks;
pending blanks left at the end of the content are dropped. -/
def specFlush : List QTok → Nat → List Char
  | [], _ => []
  | .escQuote :: rest, ws => Char.ofNat QUOTE_U8 :: specFlush rest ws
  | .byte c :: rest, ws =>
    if c = SPACE_U8 then specFlush rest (ws + 1)
    else List.replicate ws (Char.ofNat SPACE_U8) ++ Char.ofNat c :: specFlush rest 0

/-- Decoding of the content after the opening quote: the leading byte, when
ordinary, is emitted verbatim (even a blank); a doubled quote at the very
start is one literal quote; an immediate unescaped quote closes the empty
string; the remainder follows the tokenize-and-flush rule. -/
def specString : List Nat → List Char
  | [] => []
  | c :: rest =>
    if c = QUOTE_U8 then
      match rest with
      | [] => []
      | c2 :: rest2 =>
        if c2 = QUOTE_U8 then Char.ofNat QUOTE_U8 :: specFlush (specToks rest2) 0
        else []
    else Char.ofNat c :: specFlush (specToks rest) 0

/-! Helper lemmas about the data-length accumulation. -/

/-- The logical column constant evaluates to 19. -/
theorem logicalConstantColumn_eq : logicalConstantColumn = 19 := rfl

/-- Past the logical column, the loop accepts exactly the all-blank suffixes
and keeps the current boolean. -/
theorem logicalLoop_past_iff : ∀ (l : List Nat) (i : Nat) (b b' : Bool), 19 < i →
    (logicalLoop l i b = some (.Logical b') ↔
      ((∀ j : Nat, l.get? j = some SPACE_U8 ∨ l.get? j = none) ∧ b' = b)) := by
  intro l
  induction l with
  | nil =>
    intro i b b' _
    rw [logicalLoop]
    simp only [List.get?_nil, Option.some.injEq, HeaderValue.Logical.injEq]
    constructor
    · intro h
      exact ⟨fun j => Or.inr trivial, h.symm⟩
    · rintro ⟨-, hb⟩
      exact hb.symm
  | cons c rest ih =>
    intro i b b' hi
    have hne : ¬ i = logicalConstantColumn := by
      rw [logicalConstantColumn_eq]; omega
    by_cases hc : c = SPACE_U8
    · subst hc
      rw [logicalLoop, if_neg hne, if_neg (by simp)]
      rw [ih (i + 1) b b' (by omega)]
      constructor
      · rintro ⟨hall, hb⟩
        refine ⟨?_, hb⟩
        intro j
        cases j with
        | zero => exact Or.inl rfl
        | succ j => exact hall j
      · rintro ⟨hall, hb⟩
        exact ⟨fun j => hall (j + 1), hb⟩
    · rw [logicalLoop, if_neg hne, if_pos (by exact hc)]
      constructor
      · intro h
        exact absurd h (by simp)
      · rintro ⟨hall, -⟩
        rcases hall 0 with h0 | h0
        · exact absurd (Option.some.inj h0) hc
        · exact Option.noConfusion h0

/-- Characterization of the logical-value loop below the fixed column: it
succeeds exactly when every byte away from the column is blank, and the
resulting boolean is given by the byte at the column (`T` or `F`), or is the
incoming boolean when the sub-field ends before the column. -/
theorem logicalLoop_some_iff : ∀ (l : List Nat) (i : Nat) (b b' : Bool), i ≤ 19 →
    (logicalLoop l i b = some (.Logical b') ↔
      ((∀ j : Nat, i + j ≠ 19 → l.get? j = some SPACE_U8 ∨ l.get? j = none) ∧
       ((l.get? (19 - i) = some T_U8 ∧ b' = true) ∨
        (l.get? (19 - i) = some F_U8 ∧ b' = false) ∨
        (l.get? (19 - i) = none ∧ b' = b)))) := by
  intro l
  induction l with
  | nil =>
    intro i b b' _
    rw [logicalLoop]
    simp only [List.get?_nil, Option.some.injEq, HeaderValue.Logical.injEq]
    constructor
    · intro h
      exact ⟨fun j _ => Or.inr trivial, Or.inr (Or.inr ⟨trivial, h.symm⟩)⟩
    · rintro ⟨-, (⟨h, -⟩ | ⟨h, -⟩ | ⟨-, hb⟩)⟩
      · exact Option.noConfusion h
      · exact Option.noConfusion h
      · exact hb.symm
  | cons c rest ih =>
    intro i b b' hi
    by_cases hcol : i = 19
    · subst hcol
      rw [logicalLoop, if_pos (by rw [logicalConstantColumn_eq])]
      have hshift : (∀ j : Nat, 19 + j ≠ 19 → (c :: rest).get? j = some SPACE_U8 ∨
          (c :: rest).get? j = none) ↔
          (∀ j : Nat, rest.get? j = some SPACE_U8 ∨ rest.get? j = none) := by
        constructor
        · intro hall j
          exact hall (j + 1) (by omega)
        · intro hall j hj
          cases j with
          | zero => exact (hj (by omega)).elim
          | succ j => exact hall j
      by_cases hT : c = T_U8
      · subst hT
        rw [if_pos rfl, logicalLoop_past_iff rest 20 true b' (by omega)]
        simp only [Nat.sub_self, List.get?_cons_zero, Option.some.injEq, hshift]
        constructor
        · rintro ⟨hall, hb⟩
          exact ⟨hall, Or.inl ⟨trivial, hb⟩⟩
        · rintro ⟨hall, (⟨-, hb⟩ | ⟨hTF, -⟩ | ⟨hnone, -⟩)⟩
          · exact ⟨hall, hb⟩
          · exact absurd hTF (by decide)
          · exact Option.noConfusion hnone
      · by_cases hF : c = F_U8
        · subst hF
          rw [if_neg (by decide), if_pos rfl,
            logicalLoop_past_iff rest 20 false b' (by omega)]
          simp only [Nat.sub_self, List.get?_cons_zero, Option.some.injEq, hshift]
          constructor
          · rintro ⟨hall, hb⟩
            exact ⟨hall, Or.inr (Or.inl ⟨trivial, hb⟩)⟩
          · rintro ⟨hall, (⟨hTF, -⟩ | ⟨-, hb⟩ | ⟨hnone, -⟩)⟩
            · exact absurd hTF (by decide)
            · exact ⟨hall, hb⟩
            · exact Option.noConfusion hnone
        · rw [if_neg hT, if_neg hF]
          simp only [Nat.sub_self, List.get?_cons_zero, Option.some.injEq]
          constructor
          · intro h
            exact absurd h (by simp)
          · rintro ⟨-, (⟨hTF, -⟩ | ⟨hTF, -⟩ | ⟨hnone, -⟩)⟩
            · exact absurd hTF hT
            · exact absurd hTF hF
            · exact Option.noConfusion hnone
    · have hne : ¬ i = logicalConstantColumn := by
        rw [logicalConstantColumn_eq]; exact hcol
      have hi18 : i ≤ 18 := by omega
      have hsub : 19 - i = (19 - (i + 1)) + 1 := by omega
      by_cases hc : c = SPACE_U8
      · subst hc
        rw [logicalLoop, if_neg hne, if_neg (by simp)]
        rw [ih (i + 1) b b' (by omega)]
        constructor
        · rintro ⟨hall, hrest⟩
          refine ⟨?_, ?_⟩
          · intro j hj
            cases j with
            | zero => exact Or.inl rfl
            | succ j => exact hall j (by omega)
          · rw [hsub, List.get?_cons_succ]
            exact hrest
        · rintro ⟨hall, hcol'⟩
          rw [hsub, List.get?_cons_succ] at hcol'
          refine ⟨?_, hcol'⟩
          intro j hj
          exact hall (j + 1) (by omega)
      · rw [logicalLoop, if_neg hne, if_pos (by exact hc)]
        constructor
        · intro h
          exact absurd h (by simp)
        · rintro ⟨hall, -⟩
          rcases hall 0 (by omega) with h0 | h0
          · exact absurd (Option.some.inj h0) hc
          · exact Option.noConfusion h0

/-! Helper lemmas about trailing-blank trimming and the character-string
accumulation loop. -/

/-- Trimming an all-blank string gives the empty string. -/
theorem rtrimSpaces_of_all (l : List Nat)
    (h : l.all (fun c => c == SPACE_U8) = true) : rtrimSpaces l = [] := by
  unfold rtrimSpaces
  have hnil : l.reverse.dropWhile (fun c => c == SPACE_U8) = [] := by
    refine List.dropWhile_eq_nil_iff.mpr fun x hx => ?_
    rw [List.mem_reverse] at hx
    exact List.all_eq_true.mp h x hx
  rw [hnil]
  rfl

/-- Trimming commutes with a cons whose tail is not entirely blank. -/
theorem rtrimSpaces_cons_of_not_all (c : Nat) (l : List Nat)
    (h : ¬ l.all (fun c => c == SPACE_U8) = true) :
    rtrimSpaces (c :: l) = c :: rtrimSpaces l := by
  unfold rtrimSpaces
  rw [List.reverse_cons, List.dropWhile_append]
  have hne : ¬ (l.reverse.dropWhile (fun c => c == SPACE_U8)).isEmpty = true := by
    intro hemp
    rw [List.isEmpty_iff] at hemp
    refine h (List.all_eq_true.mpr fun x hx => ?_)
    exact List.dropWhile_eq_nil_iff.mp hemp x (List.mem_reverse.mpr hx)
  rw [if_neg hne, List.reverse_append, List.reverse_singleton, List.singleton_append]

/-- Trimming a non-blank head with an entirely blank tail keeps only the
head. -/
theorem rtrimSpaces_cons_of_all (c : Nat) (l : List Nat)
    (hc : ¬ c = SPACE_U8) (h : l.all (fun c => c == SPACE_U8) = true) :
    rtrimSpaces (c :: l) = [c] := by
  unfold rtrimSpaces
  rw [List.reverse_cons, List.dropWhile_append]
  have hemp : (l.reverse.dropWhile (fun c => c == SPACE_U8)).isEmpty = true := by
    rw [List.isEmpty_iff]
    refine List.dropWhile_eq_nil_iff.mpr fun x hx => ?_
    rw [List.mem_reverse] at hx
    exact List.all_eq_true.mp h x hx
  rw [if_pos hemp]
  have hsingle : List.dropWhile (fun c => c == SPACE_U8) [c] = [c] := by
    have hb : (c == SPACE_U8) = false := beq_eq_false_iff_ne.mpr hc
    simp [List.dropWhile, hb]
  rw [hsingle]
  rfl

/-- Closing a character string: on escape-free content followed by the
closing quote and a non-quote byte, the accumulation loop (at a positive
enumeration index) appends the pending blanks only when a non-blank follows,
drops trailing blanks, and ignores everything after the closing quote. -/
theorem csLoop_close (d : Nat) (junk : List Nat) (hd : d ≠ QUOTE_U8) :
    ∀ (cs : List Nat) (i ws : Nat) (s : List Char), 0 < i →
      (∀ c ∈ cs, c ≠ QUOTE_U8) →
      csLoop (cs ++ QUOTE_U8 :: d :: junk) i false ws s =
        s ++ (if cs.all (fun c => c == SPACE_U8) then []
          else List.replicate ws (Char.ofNat SPACE_U8) ++ charsOf (rtrimSpaces cs)) := by
  intro cs
  induction cs with
  | nil =>
    intro i ws s _ _
    rw [List.nil_append, csLoop, if_neg (by simp), if_pos rfl, csLoop,
      if_pos rfl, if_neg hd]
    simp
  | cons c cs ih =>
    intro i ws s hi hnq
    have hcq : c ≠ QUOTE_U8 := hnq c (List.mem_cons_self c cs)
    have hnq' : ∀ x ∈ cs, x ≠ QUOTE_U8 := fun x hx => hnq x (List.mem_cons_of_mem c hx)
    rw [List.cons_append, csLoop, if_neg (by simp), if_neg hcq]
    by_cases hc : c = SPACE_U8
    · subst hc
      rw [if_pos ⟨hi, rfl⟩, ih (i + 1) (ws + 1) s (by omega) hnq']
      have hall : (SPACE_U8 :: cs).all (fun c => c == SPACE_U8) =
          cs.all (fun c => c == SPACE_U8) := by
        simp [List.all_cons]
      rw [hall]
      by_cases hcs : cs.all (fun c => c == SPACE_U8)
      · rw [if_pos hcs, if_pos hcs]
      · rw [if_neg hcs, if_neg hcs, rtrimSpaces_cons_of_not_all SPACE_U8 cs hcs]
        show s ++ (List.replicate (ws + 1) (Char.ofNat SPACE_U8) ++ charsOf (rtrimSpaces cs)) =
          s ++ (List.replicate ws (Char.ofNat SPACE_U8) ++
            (Char.ofNat SPACE_U8 :: charsOf (rtrimSpaces cs)))
        rw [List.replicate_succ']
        simp [List.append_assoc]
    · rw [if_neg (by intro hh; exact hc hh.2), ih (i + 1) 0 _ (by omega) hnq']
      have hall : (c :: cs).all (fun c => c == SPACE_U8) = false := by
        simp [List.all_cons]
        intro hcc
        exact absurd hcc hc
      rw [hall]
      by_cases hcs : cs.all (fun c => c == SPACE_U8)
      · rw [if_pos hcs, rtrimSpaces_cons_of_all c cs hc hcs]
        show (s ++ List.replicate ws (Char.ofNat SPACE_U8) ++ [Char.ofNat c]) ++ [] =
          s ++ (List.replicate ws (Char.ofNat SPACE_U8) ++ charsOf [c])
        simp [charsOf, List.append_assoc]
      · rw [if_neg hcs, rtrimSpaces_cons_of_not_all c cs hcs]
        show (s ++ List.replicate ws (Char.ofNat SPACE_U8) ++ [Char.ofNat c]) ++
            (List.replicate 0 (Char.ofNat SPACE_U8) ++ charsOf (rtrimSpaces cs)) =
          s ++ (List.replicate ws (Char.ofNat SPACE_U8) ++
            charsOf (c :: rtrimSpaces cs))
        simp [charsOf, List.append_assoc]

/-- The escaped-quote step: a doubled quote pushes one literal quote and
continues; the pending blank count is carried over unchanged (so pending
blanks are emitted only when a later non-blank byte flushes them). -/
theorem csLoop_escape (rest : List Nat) (i ws : Nat) (s : List Char) :
    csLoop (QUOTE_U8 :: QUOTE_U8 :: rest) i false ws s =
      csLoop rest (i + 2) false ws (s ++ [Char.ofNat QUOTE_U8]) := by
  rw [csLoop, if_neg (by simp), if_pos rfl, csLoop, if_pos rfl, if_pos rfl]

/-- Once past index 0, the accumulation loop multiplies the running length by
every remaining axis. -/
theorem dataLengthLoop_of_pos (l : List Nat) :
    ∀ i len : Nat, 0 < i → dataLengthLoop l i len = len * l.prod := by
  induction l with
  | nil => intro i len _; simp [dataLengthLoop]
  | cons k rest ih =>
    intro i len hi
    have hne : i ≠ 0 := Nat.pos_iff_ne_zero.mp hi
    simp only [dataLengthLoop, if_neg hne]
    rw [ih (i + 1) (len * k) (Nat.succ_pos i), List.prod_cons, Nat.mul_assoc]

/-- The accumulation loop started at index 0 computes the plain product of a
nonempty axis list. -/
theorem dataLengthLoop_cons (k : Nat) (rest : List Nat) :
    dataLengthLoop (k :: rest) 0 0 = (k :: rest).prod := by
  have h : dataLengthLoop (k :: rest) 0 0 = dataLengthLoop rest 1 k := by
    simp [dataLengthLoop]
  rw [h, dataLengthLoop_of_pos rest 1 k Nat.one_pos, List.prod_cons]

/-- Folding multiplication from a seed equals the seed times the product. -/
theorem foldl_mul_eq_prod (l : List Nat) :
    ∀ a : Nat, l.foldl (fun len size => len * size) a = a * l.prod := by
  induction l with
  | nil => intro a; simp
  | cons k rest ih =>
    intro a
    rw [List.foldl_cons, ih (a * k), List.prod_cons, Nat.mul_assoc]

/-- Absolute value as written in the source (`if bit < 0 { -bit } else bit`
followed by `as usize`) agrees with `Int.natAbs`. -/
theorem absToNat_eq_natAbs (bit : Int) :
    (if bit < 0 then -bit else bit).toNat = bit.natAbs := by
  split <;> omega

/-- Unfolding `Hdu.data_byte_length` when `NAXIS` data and `BITPIX` are
available. -/
theorem data_byte_length_eq (hdu : Hdu) (bitpix : Int) (axes : List Nat)
    (hb : hdu.value_as_integer_number ("BITPIX") = some bitpix)
    (hn : hdu.naxis = some axes) :
    hdu.data_byte_length = some (dataLengthLoop axes 0 0 * (bitpix.natAbs / 8)) := by
  unfold Hdu.data_byte_length Hdu.data_length
  rw [hn]
  simp only [Option.map_some', Option.some_bind, hb]
  rw [absToNat_eq_natAbs]

/-- C2 (counterexample): for the header `BITPIX = 8`, `NAXIS = 3` with axis
sizes 2, 3, 4, the computed data byte length is 24 (the product of all axis
sizes), not `2 + 3 × 4 = 14` as the claim's axis-combination formula states. -/
theorem c2_counterexample :
    c2hdu.data_byte_length = some 24 ∧ (24 : Nat) ≠ 8 / 8 * (2 + 3 * 4) := by
  constructor
  · decide
  · decide

/-- C2 (amended): for every HDU header with `BITPIX` and a nonempty axis
list, the data byte length is `|BITPIX| / 8` times the plain product of all
axis sizes (the index-0 axis seeds the accumulator, later axes multiply). -/
theorem c2_amended (hdu : Hdu) (bitpix : Int) (k : Nat) (rest : List Nat)
    (hb : hdu.value_as_integer_number ("BITPIX") = some bitpix)
    (hn : hdu.naxis = some (k :: rest)) :
    hdu.data_byte_length = some ((k :: rest).prod * (bitpix.natAbs / 8)) := by
  rw [data_byte_length_eq hdu bitpix (k :: rest) hb hn, dataLengthLoop_cons]

/-- C2 (witness): the amended statement evaluated on the concrete header
`BITPIX = 8`, axes 2, 3, 4 gives 24 bytes. -/
theorem c2_amended_witness : c2hdu.data_byte_length = some 24 := by
  have h := c2_amended c2hdu 8 2 [3, 4] (by decide) (by decide)
  simpa using h

/-- C3: for every HDU header with `BITPIX` and a nonempty axis list, the
data byte length equals the accumulation that seeds the length with the size
of axis 1 and multiplies by each later axis, times `|BITPIX| / 8` bytes per
element. -/
theorem c3_data_byte_length (hdu : Hdu) (bitpix : Int) (k : Nat) (rest : List Nat)
    (hb : hdu.value_as_integer_number ("BITPIX") = some bitpix)
    (hn : hdu.naxis = some (k :: rest)) :
    hdu.data_byte_length =
      some (rest.foldl (fun len size => len * size) k * (bitpix.natAbs / 8)) := by
  rw [data_byte_length_eq hdu bitpix (k :: rest) hb hn, dataLengthLoop_cons,
    foldl_mul_eq_prod, List.prod_cons]

/-- C3 (witness): on the concrete header `BITPIX = 32`, `NAXIS = 2`,
`NAXIS1 = 10`, `NAXIS2 = 2` the byte length is `(32/8) × 10 × 2 = 80`. -/
theorem c3_witness : c3hdu.data_byte_length = some 80 := by
  have h := c3_data_byte_length c3hdu 32 10 [2] (by decide) (by decide)
  simpa using h

/-- C5 (counterexample): for the degenerate `NAXIS = 0` header the decoder's
element count (the product of the empty shape) is 1 while the scanner's
data-length accumulation gives 0, so the two computations disagree. -/
theorem c5_counterexample :
    c5hdu.inner_read_data_count = Res.ok 1 ∧ c5hdu.data_length = some 0 ∧
      (1 : Nat) ≠ 0 := by
  refine ⟨by decide, by decide, by decide⟩

/-- C5 (amended): for every HDU with a nonempty `NAXIS`-derived shape the
decoder's element count equals the scanner's axis-combination accumulation;
for the degenerate `NAXIS = 0` shape they disagree: the decoder uses the
empty product 1 while the scanner's accumulation yields 0. -/
theorem c5_amended :
    (∀ (hdu : Hdu) (k : Nat) (rest : List Nat), hdu.naxis = some (k :: rest) →
       hdu.inner_read_data_count = Res.ok (dataLengthLoop (k :: rest) 0 0)) ∧
    (∀ hdu : Hdu, hdu.naxis = some [] →
       hdu.inner_read_data_count = Res.ok 1 ∧ hdu.data_length = some 0) := by
  constructor
  · intro hdu k rest hn
    unfold Hdu.inner_read_data_count
    rw [hn, dataLengthLoop_cons]
  · intro hdu hn
    constructor
    · unfold Hdu.inner_read_data_count
      rw [hn]
      rfl
    · unfold Hdu.data_length
      rw [hn]
      rfl

/-- C5 (witness): the amended agreement evaluated on the concrete header
`NAXIS = 2` with axes 3 and 4 gives an element count of 12 on both sides. -/
theorem c5_amended_witness :
    c5bhdu.inner_read_data_count = Res.ok 12 ∧ c5bhdu.data_length = some 12 := by
  have h := c5_amended.1 c5bhdu 3 [4] (by decide)
  exact ⟨by simpa using h, by decide⟩

/-- C6 (code bug): the 80-byte card `KEY     = /` (a value indicator whose
value sub-field is empty because a slash immediately follows it) makes
header-card parsing panic with an out-of-bounds index instead of keeping the
record with an absent value. -/
theorem c6_panic_on_empty_value :
    to_header_key_value (cardImageFrom ("KEY     = /")) = Res.panicked := by
  decide

/-- C9 (counterexample): with the declared `BLANK = 65541` (an `i32` that
does not fit in 16 bits) the raw element 5 is decoded as missing even though
`5 ≠ 65541`, because the source compares against `BLANK as i16`. -/
theorem c9_counterexample :
    decodeI16Arm (some 65541) [0, 5] 1 = some [none] ∧ (5 : Int) ≠ 65541 := by
  refine ⟨by decide, by decide⟩

/-- C9 (amended): decoding 16-bit data with a declared `BLANK` maps exactly
the raw elements equal to `BLANK` truncated to `i16` to missing and keeps
every other element unchanged; with no `BLANK` every element is present; the
truncation is the identity whenever `BLANK` lies in the `i16` range, so for
in-range `BLANK` values the comparison is against `BLANK` itself. -/
theorem c9_amended :
    (∀ (blankValue : Int) (bytes : List Nat) (len : Nat) (buf : List Int),
       readI16BE bytes len = some buf →
       decodeI16Arm (some blankValue) bytes len =
         some (buf.map fun n => if n = i16OfI32 blankValue then none else some n) ∧
       decodeI16Arm none bytes len = some (buf.map fun n => some n)) ∧
    (∀ blankValue : Int, -32768 ≤ blankValue → blankValue ≤ 32767 →
       i16OfI32 blankValue = blankValue) := by
  constructor
  · intro blankValue bytes len buf h
    unfold decodeI16Arm
    rw [h]
    exact ⟨rfl, rfl⟩
  · intro blankValue h1 h2
    unfold i16OfI32
    omega

/-- C9 (witness): with `BLANK = -9999` the raw elements -9999 and 5 decode
to missing and present-5 respectively. -/
theorem c9_amended_witness :
    decodeI16Arm (some (-9999)) [216, 241, 0, 5] 2 = some [none, some 5] := by
  have h := (c9_amended.1 (-9999) [216, 241, 0, 5] 2 [-9999, 5] (by decide)).1
  rw [h]
  decide

/-! Structured evaluation of the scanner on the concrete file `c4file` (too
long for one kernel reduction, so the scan is unfolded card by card). -/

/-- Length of the first concrete card. -/
theorem c4card0_length : c4card0.length = 80 := by decide

/-- Length of the second concrete card. -/
theorem c4card1_length : c4card1.length = 80 := by decide

/-- Length of the third concrete card. -/
theorem c4card2_length : c4card2.length = 80 := by decide

/-- `c4file` with the replicate count evaluated (definitionally equal). -/
theorem c4file_assoc :
    c4file = (c4card0 ++ c4card1 ++ c4card2) ++ List.replicate 2640 SPACE_U8 := rfl

/-- `c4file` reassociated to expose the first card. -/
theorem c4file_shape1 :
    c4file = c4card0 ++ (c4card1 ++ (c4card2 ++ List.replicate 2640 SPACE_U8)) := by
  rw [c4file_assoc, List.append_assoc, List.append_assoc]

/-- `c4file` reassociated to expose the first two cards. -/
theorem c4file_shape2 :
    c4file = (c4card0 ++ c4card1) ++ (c4card2 ++ List.replicate 2640 SPACE_U8) := by
  rw [c4file_assoc, List.append_assoc]

/-- Length of the three leading cards. -/
theorem c4front_length : (c4card0 ++ c4card1 ++ c4card2).length = 240 := by
  rw [List.length_append, List.length_append, c4card0_length, c4card1_length,
    c4card2_length]

/-- Total length of the concrete file. -/
theorem c4file_length : c4file.length = 2880 := by
  rw [c4file_assoc, List.length_append, c4front_length, List.length_replicate]

/-- Reading the first card of `c4file`. -/
theorem c4read0 : readExact80 c4file 0 = some c4card0 := by
  unfold readExact80
  rw [c4file_length, if_pos (by norm_num)]
  rw [List.drop_zero, c4file_shape1, List.take_left' c4card0_length]

/-- Reading the second card of `c4file`. -/
theorem c4read1 : readExact80 c4file 80 = some c4card1 := by
  unfold readExact80
  rw [c4file_length, if_pos (by norm_num)]
  rw [c4file_shape1, List.drop_left' c4card0_length, List.take_left' c4card1_length]

/-- Reading the third card of `c4file`. -/
theorem c4read2 : readExact80 c4file 160 = some c4card2 := by
  unfold readExact80
  rw [c4file_length, if_pos (by norm_num)]
  have h01 : (c4card0 ++ c4card1).length = 160 := by
    rw [List.length_append, c4card0_length, c4card1_length]
  rw [c4file_shape2, List.drop_left' h01, List.take_left' c4card2_length]

/-- Reading any of the 33 trailing blank cards of `c4file`. -/
theorem c4readBlank (m : Nat) (hm : m ≤ 32) :
    readExact80 c4file (240 + 80 * m) = some blankCard := by
  unfold readExact80
  rw [c4file_length, if_pos (by omega)]
  rw [c4file_assoc]
  have hdrop : ((c4card0 ++ c4card1 ++ c4card2) ++ List.replicate 2640 SPACE_U8).drop
      (240 + 80 * m) = (List.replicate 2640 SPACE_U8).drop (80 * m) := by
    have h := @List.drop_append Nat (c4card0 ++ c4card1 ++ c4card2)
      (List.replicate 2640 SPACE_U8) (80 * m)
    rw [c4front_length] at h
    exact h
  rw [hdrop, List.drop_replicate, List.take_replicate]
  have hmin : min 80 (2640 - 80 * m) = 80 := by omega
  rw [hmin]
  rfl

/-- Parsing the first concrete card. -/
theorem c4parse0 :
    to_header_key_value c4card0 =
      Res.ok (some ("SIMPLE", some ⟨some (.Logical true), none⟩)) := by decide

/-- Parsing the second concrete card. -/
theorem c4parse1 :
    to_header_key_value c4card1 =
      Res.ok (some ("BITPIX", some ⟨some (.IntegerNumber 8), none⟩)) := by decide

/-- Parsing the END card. -/
theorem c4parse2 :
    to_header_key_value c4card2 = Res.ok (some ("END", none)) := by decide

/-- Parsing a blank card produces no record. -/
theorem c4parseBlank : to_header_key_value blankCard = Res.ok none := by decide

/-- One iteration of the scan loop on a card that yields a record. -/
theorem scanLoopFuel_step (fuel fuel' : Nat) (file : List Nat) (pos lc : Nat)
    (header : List (String × Option HeaderValueComment)) (endSeen : Bool)
    (card : List Nat) (key : String) (val : Option HeaderValueComment)
    (hfuel : fuel = fuel' + 1)
    (hcond : lc % 36 ≠ 0 ∨ endSeen = false)
    (hread : readExact80 file pos = some card)
    (hparse : to_header_key_value card = Res.ok (some (key, val))) :
    scanLoopFuel fuel file pos lc header endSeen =
      scanLoopFuel fuel' file (pos + 80) (lc + 1) (header ++ [(key, val)])
        (endSeen || key == "END") := by
  subst hfuel
  conv_lhs => rw [scanLoopFuel]
  simp only [if_pos hcond, hread, hparse]

/-- One iteration of the scan loop on a card that yields no record. -/
theorem scanLoopFuel_step_blank (fuel fuel' : Nat) (file : List Nat) (pos lc : Nat)
    (header : List (String × Option HeaderValueComment)) (endSeen : Bool)
    (card : List Nat)
    (hfuel : fuel = fuel' + 1)
    (hcond : lc % 36 ≠ 0 ∨ endSeen = false)
    (hread : readExact80 file pos = some card)
    (hparse : to_header_key_value card = Res.ok none) :
    scanLoopFuel fuel file pos lc header endSeen =
      scanLoopFuel fuel' file (pos + 80) (lc + 1) header endSeen := by
  subst hfuel
  conv_lhs => rw [scanLoopFuel]
  simp only [if_pos hcond, hread, hparse]

/-- Exit of the scan loop: END has been seen and the card count is a
multiple of 36. -/
theorem scanLoopFuel_exit (fuel : Nat) (file : List Nat) (pos lc : Nat)
    (header : List (String × Option HeaderValueComment))
    (h36 : lc % 36 = 0) :
    scanLoopFuel fuel file pos lc header true = Res.ok (some (header, pos)) := by
  rw [scanLoopFuel]
  rw [if_neg (by simp [h36])]

/-- Scanning the run of blank padding cards of `c4file` down to the block
boundary. -/
theorem c4blankScan : ∀ n m fuel : Nat, n + m = 33 → n ≤ fuel →
    scanLoopFuel fuel c4file (240 + 80 * m) (3 + m) c4header true =
      Res.ok (some (c4header, 2880)) := by
  intro n
  induction n with
  | zero =>
    intro m fuel hm _
    have hm33 : m = 33 := by omega
    subst hm33
    have hpos : 240 + 80 * 33 = 2880 := by norm_num
    rw [hpos]
    exact scanLoopFuel_exit fuel c4file 2880 (3 + 33) c4header (by norm_num)
  | succ n ih =>
    intro m fuel hm hfuel
    have hm32 : m ≤ 32 := by omega
    rw [scanLoopFuel_step_blank fuel (fuel - 1) c4file (240 + 80 * m) (3 + m)
      c4header true blankCard (by omega) (by omega) (c4readBlank m hm32) c4parseBlank]
    have h1 : 240 + 80 * m + 80 = 240 + 80 * (m + 1) := by ring
    have h2 : 3 + m + 1 = 3 + (m + 1) := by ring
    rw [h1, h2]
    exact ih (m + 1) (fuel - 1) (by omega) (by omega)

/-- The scanner extracts exactly `c4header` from `c4file`, with the data
section starting at offset 2880. -/
theorem c4headerScan : headerScan c4file 0 = Res.ok (some (c4header, 2880)) := by
  unfold headerScan
  rw [c4file_length]
  rw [scanLoopFuel_step 2881 2880 c4file 0 0 [] false c4card0 ("SIMPLE")
    (some ⟨some (.Logical true), none⟩) (by norm_num) (Or.inr rfl) c4read0 c4parse0]
  rw [show (("SIMPLE" : String) == "END") = false from by decide]
  rw [scanLoopFuel_step 2880 2879 c4file (0 + 80) (0 + 1) _ _ c4card1 ("BITPIX")
    (some ⟨some (.IntegerNumber 8), none⟩) (by norm_num) (by norm_num) c4read1 c4parse1]
  rw [show (("BITPIX" : String) == "END") = false from by decide]
  rw [scanLoopFuel_step 2879 2878 c4file (0 + 80 + 80) (0 + 1 + 1) _ _ c4card2 ("END")
    none (by norm_num) (by norm_num) c4read2 c4parse2]
  rw [show (("END" : String) == "END") = true from by decide]
  show scanLoopFuel 2878 c4file (240 + 80 * 0) (3 + 0) c4header _ = _
  exact c4blankScan 33 0 2878 (by norm_num) (by norm_num)

/-- C4 (counterexample): `c4file` is a complete single-block header whose
keywords do not include `NAXIS`; scanning it does not succeed with a
zero-length data section — `read_next_hdu` panics on the `unwrap` of the
uncomputable data byte length. -/
theorem c4_counterexample :
    headerScan c4file 0 = Res.ok (some (c4header, 2880)) ∧
    Hdu.value ⟨c4header, 2880⟩ ("NAXIS") = none ∧
    read_next_hdu c4file 0 = ScanResult.panicked := by
  refine ⟨c4headerScan, by decide, ?_⟩
  unfold read_next_hdu
  rw [c4headerScan]
  simp only [show Hdu.data_byte_length ⟨c4header, 2880⟩ = none from by decide]

/-- C4 (amended): for every HDU whose scanned header lacks the `NAXIS`
keyword, the data byte length computation yields no value and the scanner
panics on its `unwrap` — the HDU is not treated as having a zero-length data
section. -/
theorem c4_amended (file : List Nat) (position : Nat)
    (header : List (String × Option HeaderValueComment)) (ds : Nat)
    (hscan : headerScan file position = Res.ok (some (header, ds)))
    (hnx : Hdu.value ⟨header, ds⟩ ("NAXIS") = none) :
    Hdu.data_byte_length ⟨header, ds⟩ = none ∧
      read_next_hdu file position = ScanResult.panicked := by
  have hint : Hdu.value_as_integer_number ⟨header, ds⟩ ("NAXIS") = none := by
    unfold Hdu.value_as_integer_number
    rw [hnx]
    rfl
  have hnax : Hdu.naxis ⟨header, ds⟩ = none := by
    unfold Hdu.naxis
    rw [hint]
    rfl
  have hdl : Hdu.data_length ⟨header, ds⟩ = none := by
    unfold Hdu.data_length
    rw [hnax]
    rfl
  have hdbl : Hdu.data_byte_length ⟨header, ds⟩ = none := by
    unfold Hdu.data_byte_length
    rw [hdl]
    rfl
  refine ⟨hdbl, ?_⟩
  unfold read_next_hdu
  rw [hscan]
  simp only [hdbl]

/-- C4 (witness): the amended statement applied to the concrete `c4file`. -/
theorem c4_amended_witness :
    Hdu.data_byte_length ⟨c4header, 2880⟩ = none ∧
      read_next_hdu c4file 0 = ScanResult.panicked :=
  c4_amended c4file 0 c4header 2880 c4headerScan (by decide)

/-- C1 (counterexample): with the HDU at index 0 already present in the
cache, a `next` call on the consuming iterator still performs a scanner
invocation (one, not zero) and leaves the cache untouched — it neither
returns the cached element as such nor appends anything, so the HDU region at
index 0 is parsed again. -/
theorem c1_counterexample :
    (fitsIntoIterNext scan0 ⟨[sampleHdu], none⟩ 0).scans = 1 ∧
    (fitsIntoIterNext scan0 ⟨[sampleHdu], none⟩ 0).fits = ⟨[sampleHdu], none⟩ ∧
    ([sampleHdu] : List Hdu).get? 0 = some sampleHdu := by
  refine ⟨by decide, by decide, by decide⟩

/-- C1 (amended): the by-reference and by-mutable-reference iterators share
the archive's cache: a `next` call at index `k` either returns the cached
element at `k` with no scanner invocation, or (when `k` equals the cache
length) performs exactly one scanner invocation from the iterator's own
offset and appends the result at index `k`; the consuming iterator instead
always performs one scanner invocation and never reads or extends the cache,
so an HDU region may be parsed more than once across modes. -/
theorem c1_amended (scan : Nat → Option (Hdu × Nat)) (fits : FitsState) (it : IterState)
    (htot : ∀ n, fits.total_hdu_count = some n → it.count < n) :
    (∀ h : it.count < fits.hdus.length,
       fitsIterNext scan fits it =
         ⟨some (fits.hdus.get ⟨it.count, h⟩), fits, ⟨it.position, it.count + 1⟩, 0⟩ ∧
       fitsIterMutNext scan fits it =
         ⟨some (fits.hdus.get ⟨it.count, h⟩), fits, ⟨it.position, it.count + 1⟩, 0⟩) ∧
    (∀ (hdu : Hdu) (next_position : Nat), it.count = fits.hdus.length →
       scan it.position = some (hdu, next_position) →
       fitsIterNext scan fits it =
         ⟨some hdu, ⟨fits.hdus ++ [hdu], fits.total_hdu_count⟩,
           ⟨next_position, it.count + 1⟩, 1⟩ ∧
       fitsIterMutNext scan fits it =
         ⟨some hdu, ⟨fits.hdus ++ [hdu], fits.total_hdu_count⟩,
           ⟨next_position, it.count + 1⟩, 1⟩ ∧
       (fits.hdus ++ [hdu]).get? it.count = some hdu) ∧
    (∀ (position : Nat) (hdu : Hdu) (next_position : Nat),
       scan position = some (hdu, next_position) →
       fitsIntoIterNext scan fits position = ⟨some hdu, fits, next_position, 1⟩) := by
  have hbody_cached : ∀ h : it.count < fits.hdus.length,
      fitsIterNextBody scan fits it =
        ⟨some (fits.hdus.get ⟨it.count, h⟩), fits, ⟨it.position, it.count + 1⟩, 0⟩ := by
    intro h
    unfold fitsIterNextBody
    rw [dif_pos h]
  have hbody_scan : ∀ (hdu : Hdu) (next_position : Nat),
      it.count = fits.hdus.length → scan it.position = some (hdu, next_position) →
      fitsIterNextBody scan fits it =
        ⟨some hdu, ⟨fits.hdus ++ [hdu], fits.total_hdu_count⟩,
          ⟨next_position, it.count + 1⟩, 1⟩ := by
    intro hdu next_position hc hscan
    unfold fitsIterNextBody
    rw [dif_neg (by omega), hscan]
  have hpass : ∀ g : FitsState → IterState → IterStep,
      (match fits.total_hdu_count with
        | some hdu_count =>
          if it.count ≥ hdu_count then (⟨none, fits, it, 0⟩ : IterStep) else g fits it
        | none => g fits it) = g fits it := by
    intro g
    cases htotc : fits.total_hdu_count with
    | none => rfl
    | some n =>
      have hlt := htot n htotc
      simp only [ge_iff_le, if_neg (by omega : ¬ n ≤ it.count)]
  refine ⟨?_, ?_, ?_⟩
  · intro h
    constructor
    · rw [fitsIterNext, hpass (fun f i => fitsIterNextBody scan f i), hbody_cached h]
    · rw [fitsIterMutNext, hpass (fun f i => fitsIterNextBody scan f i), hbody_cached h]
  · intro hdu next_position hc hscan
    refine ⟨?_, ?_, ?_⟩
    · rw [fitsIterNext, hpass (fun f i => fitsIterNextBody scan f i),
        hbody_scan hdu next_position hc hscan]
    · rw [fitsIterMutNext, hpass (fun f i => fitsIterNextBody scan f i),
        hbody_scan hdu next_position hc hscan]
    · rw [hc]
      exact List.get?_concat_length fits.hdus hdu
  · intro position hdu next_position hscan
    unfold fitsIntoIterNext
    rw [hscan]

/-- C1 (witness): on a one-HDU archive whose cache already holds index 0, the
by-reference iterator's first `next` serves the cached element with zero
scanner invocations. -/
theorem c1_amended_witness :
    fitsIterNext scan0 ⟨[sampleHdu], none⟩ ⟨0, 0⟩ =
      ⟨some sampleHdu, ⟨[sampleHdu], none⟩, ⟨0, 1⟩, 0⟩ := by
  have h := (c1_amended scan0 ⟨[sampleHdu], none⟩ ⟨0, 0⟩
    (fun n hn => Option.noConfusion hn)).1 (by decide)
  exact h.1

/-- Character-string parsing of an escape-free content followed by the
closing quote and a non-quote byte. -/
theorem newCharacterString_close (cs : List Nat) (d : Nat) (junk : List Nat)
    (hnq : ∀ c ∈ cs, c ≠ QUOTE_U8) (hd : d ≠ QUOTE_U8) :
    HeaderValue.new_character_string (QUOTE_U8 :: (cs ++ QUOTE_U8 :: d :: junk)) =
      Res.ok (some (.CharacterString (stringResult cs))) := by
  have hcs : csLoop (cs ++ QUOTE_U8 :: d :: junk) 0 false 0 [] = stringResult cs := by
    cases cs with
    | nil =>
      rw [List.nil_append, csLoop, if_neg (by simp), if_pos rfl, csLoop, if_pos rfl,
        if_neg hd]
      rw [stringResult, if_neg (by rintro ⟨h, -⟩; exact h rfl)]
      rfl
    | cons c0 cs' =>
      have hc0q : c0 ≠ QUOTE_U8 := hnq c0 (List.mem_cons_self c0 cs')
      have hnq' : ∀ x ∈ cs', x ≠ QUOTE_U8 := fun x hx => hnq x (List.mem_cons_of_mem c0 hx)
      rw [List.cons_append, csLoop, if_neg (by simp), if_neg hc0q,
        if_neg (by rintro ⟨h0, -⟩; omega)]
      rw [csLoop_close d junk hd cs' 1 0 _ (by omega) hnq']
      by_cases hcs' : cs'.all (fun c => c == SPACE_U8)
      · rw [if_pos hcs']
        by_cases hc0 : c0 = SPACE_U8
        · subst hc0
          have hres : stringResult (SPACE_U8 :: cs') = [Char.ofNat SPACE_U8] := by
            rw [stringResult, if_pos ⟨by simp, by simp [List.all_cons, hcs']⟩]
          rw [hres]
          simp
        · have hres : stringResult (c0 :: cs') = [Char.ofNat c0] := by
            rw [stringResult, if_neg (by
                rintro ⟨-, hall⟩
                have hmem := List.all_eq_true.mp hall c0 (List.mem_cons_self c0 cs')
                simp only [beq_iff_eq] at hmem
                exact hc0 hmem),
              rtrimSpaces_cons_of_all c0 cs' hc0 hcs']
            rfl
          rw [hres]
          simp
      · rw [if_neg hcs']
        have hnotall : ¬ (c0 :: cs').all (fun c => c == SPACE_U8) = true := by
          simp only [List.all_cons, Bool.and_eq_true]
          rintro ⟨-, h⟩
          exact hcs' h
        rw [stringResult, if_neg (by rintro ⟨-, hall⟩; exact hnotall hall),
          rtrimSpaces_cons_of_not_all c0 cs' hcs']
        simp [charsOf]
  rw [HeaderValue.new_character_string, if_neg (by simp), hcs]

/-- Bounded-length form of the equivalence between the source accumulation
loop (past the leading byte) and the claim-level tokenize-and-flush rule. -/
theorem csLoop_eq_specFlush_aux (n : Nat) : ∀ tail : List Nat, tail.length ≤ n →
    ∀ (i ws : Nat) (s : List Char), 0 < i →
    csLoop tail i false ws s = s ++ specFlush (specToks tail) ws := by
  induction n with
  | zero =>
    intro tail hlen i ws s _
    have htail : tail = [] := List.length_eq_zero.mp (Nat.le_zero.mp hlen)
    subst htail
    simp [csLoop, specToks, specFlush]
  | succ n ih =>
    intro tail hlen i ws s hi
    obtain - | ⟨c, - | ⟨c2, rest2⟩⟩ := tail
    · simp [csLoop, specToks, specFlush]
    · by_cases hq : c = QUOTE_U8
      · subst hq
        rw [csLoop, if_neg (by simp), if_pos rfl, csLoop]
        simp [specToks, specFlush]
      · by_cases hsp : c = SPACE_U8
        · subst hsp
          rw [csLoop, if_neg (by simp), if_neg hq, if_pos ⟨hi, rfl⟩, csLoop]
          rw [specToks, if_neg hq, specFlush, if_pos rfl]
          simp [specFlush]
        · rw [csLoop, if_neg (by simp), if_neg hq,
            if_neg (by rintro ⟨-, h⟩; exact hsp h), csLoop]
          rw [specToks, if_neg hq, specFlush, if_neg hsp]
          simp [specFlush, List.append_assoc]
    · by_cases hq : c = QUOTE_U8
      · subst hq
        by_cases hq2 : c2 = QUOTE_U8
        · subst hq2
          rw [csLoop_escape,
            ih rest2 (by simp at hlen ⊢; omega) (i + 2) ws _ (by omega)]
          rw [specToks, if_pos rfl, if_pos rfl, specFlush]
          simp [List.append_assoc]
        · rw [csLoop, if_neg (by simp), if_pos rfl, csLoop, if_pos rfl, if_neg hq2]
          rw [specToks, if_pos rfl, if_neg hq2]
          simp [specFlush]
      · by_cases hsp : c = SPACE_U8
        · subst hsp
          rw [csLoop, if_neg (by simp), if_neg hq, if_pos ⟨hi, rfl⟩,
            ih (c2 :: rest2) (by simp at hlen ⊢; omega) (i + 1) (ws + 1) s (by omega)]
          rw [specToks, if_neg hq, specFlush, if_pos rfl]
        · rw [csLoop, if_neg (by simp), if_neg hq,
            if_neg (by rintro ⟨-, h⟩; exact hsp h),
            ih (c2 :: rest2) (by simp at hlen ⊢; omega) (i + 1) 0 _ (by omega)]
          rw [specToks, if_neg hq, specFlush, if_neg hsp]
          simp [List.append_assoc]

/-- Past the leading byte, the source accumulation loop equals the
claim-level tokenize-and-flush rule. -/
theorem csLoop_eq_specFlush (tail : List Nat) (i ws : Nat) (s : List Char)
    (hi : 0 < i) :
    csLoop tail i false ws s = s ++ specFlush (specToks tail) ws :=
  csLoop_eq_specFlush_aux tail.length tail le_rfl i ws s hi

/-- The source accumulation equals the claim-level decoding on every
content. -/
theorem csLoop_eq_specString (tail : List Nat) :
    csLoop tail 0 false 0 [] = specString tail := by
  obtain - | ⟨c, rest⟩ := tail
  · rfl
  · by_cases hq : c = QUOTE_U8
    · subst hq
      obtain - | ⟨c2, rest2⟩ := rest
      · rfl
      · by_cases hq2 : c2 = QUOTE_U8
        · subst hq2
          rw [csLoop_escape, csLoop_eq_specFlush rest2 2 0 _ (by omega)]
          rw [specString.eq_def]
          simp only [if_true]
          simp
        · rw [csLoop, if_neg (by simp), if_pos rfl, csLoop, if_pos rfl, if_neg hq2,
            specString.eq_def]
          simp only [if_true]
          rw [if_neg hq2]
    · rw [csLoop, if_neg (by simp), if_neg hq, if_neg (by rintro ⟨h0, -⟩; omega),
        csLoop_eq_specFlush rest 1 0 _ (by omega)]
      rw [specString.eq_def]
      simp only []
      rw [if_neg hq]
      simp

/-- Character-string parsing of every sub-field beginning with a quote, as
the claim-level decoding. -/
theorem newCharacterString_eq_spec (tail : List Nat) :
    HeaderValue.new_character_string (QUOTE_U8 :: tail) =
      Res.ok (some (.CharacterString (specString tail))) := by
  rw [HeaderValue.new_character_string, if_neg (by simp), csLoop_eq_specString]

/-- C7 (counterexample): for the sub-field written as quote a b blank quote
quote c d quote (the literal form of ab blank-doubled-quote cd), the parser
produces the characters a b quote blank c d: the blank pending before the
doubled quote is emitted after the literal quote. The claimed decoding — the
doubled quote stands for one literal quote with the surrounding text left in
place — would give a b blank quote c d, a different string. -/
theorem c7_counterexample :
    HeaderValue.new_character_string
        ([QUOTE_U8, 97, 98, SPACE_U8, QUOTE_U8, QUOTE_U8, 99, 100, QUOTE_U8] ++
          List.replicate 61 SPACE_U8) =
      Res.ok (some (.CharacterString
        [Char.ofNat 97, Char.ofNat 98, Char.ofNat QUOTE_U8, Char.ofNat SPACE_U8,
          Char.ofNat 99, Char.ofNat 100])) ∧
    ([Char.ofNat 97, Char.ofNat 98, Char.ofNat QUOTE_U8, Char.ofNat SPACE_U8,
        Char.ofNat 99, Char.ofNat 100] ≠
      [Char.ofNat 97, Char.ofNat 98, Char.ofNat SPACE_U8, Char.ofNat QUOTE_U8,
        Char.ofNat 99, Char.ofNat 100]) :=
  ⟨by decide, by decide⟩

/-- C7 (amended): for every value sub-field beginning with a single quote,
the parsed string terminates at the first unescaped single quote (or at the
end of the sub-field) and a doubled single quote decodes to one literal
quote, but blanks after the leading byte are held pending and flushed only
before the next ordinary non-blank byte — an escaped quote is emitted
without flushing, so blanks pending before a doubled quote appear after the
literal quote — and pending (trailing) blanks are dropped at the end; on
escape-free content this is exactly the claimed rule: trailing whitespace
before the closing quote is dropped unless the entire content is whitespace,
which yields exactly one space. In particular the ab-doubled-quote-cd
sub-field parses to a b quote c d and the all-blank sub-field to one
space. -/
theorem c7_amended :
    (∀ tail : List Nat,
      HeaderValue.new_character_string (QUOTE_U8 :: tail) =
        Res.ok (some (.CharacterString (specString tail)))) ∧
    (∀ (cs : List Nat) (d : Nat) (junk : List Nat),
      (∀ c ∈ cs, c ≠ QUOTE_U8) → d ≠ QUOTE_U8 →
      HeaderValue.new_character_string (QUOTE_U8 :: (cs ++ QUOTE_U8 :: d :: junk)) =
        Res.ok (some (.CharacterString (stringResult cs)))) ∧
    (HeaderValue.new_character_string
        ([QUOTE_U8, 97, 98, QUOTE_U8, QUOTE_U8, 99, 100, QUOTE_U8] ++
          List.replicate 62 SPACE_U8) =
      Res.ok (some (.CharacterString
        [Char.ofNat 97, Char.ofNat 98, Char.ofNat QUOTE_U8, Char.ofNat 99,
          Char.ofNat 100]))) ∧
    (HeaderValue.new_character_string
        ([QUOTE_U8, SPACE_U8, SPACE_U8, QUOTE_U8] ++ List.replicate 66 SPACE_U8) =
      Res.ok (some (.CharacterString [Char.ofNat SPACE_U8]))) :=
  ⟨newCharacterString_eq_spec, newCharacterString_close, by decide, by decide⟩

/-- C7 (witness): the escape-free conjunct applied to the one-character
content a followed by its closing quote and a blank. -/
theorem c7_amended_witness :
    HeaderValue.new_character_string [QUOTE_U8, 97, QUOTE_U8, SPACE_U8] =
      Res.ok (some (.CharacterString [Char.ofNat 97])) := by
  have h := c7_amended.2.1 [97] SPACE_U8 [] (by decide) (by decide)
  rw [show stringResult [97] = [Char.ofNat 97] from by decide] at h
  exact h

/-- C8 (counterexample): the all-blank five-byte value sub-field produces a
`Logical false` through the value-parsing chain although no `T` or `F` (and
indeed no byte at all) occupies offset 19 — the sub-field is shorter than 20
bytes, which the claim's characterization does not allow. -/
theorem c8_counterexample :
    HeaderValue.new (List.replicate 5 SPACE_U8) = Res.ok (some (.Logical false)) ∧
    (List.replicate 5 SPACE_U8).get? 19 = none :=
  ⟨by decide, by decide⟩

/-- C8 (amended): a Logical value is produced iff every byte away from
offset 19 is blank and the byte at offset 19 — when it exists — is `T`
(giving true) or `F` (giving false); when the sub-field is shorter than 20
bytes and entirely blank, `Logical false` is produced even though no byte
occupies the fixed column. -/
theorem c8_amended (value : List Nat) (b : Bool) :
    HeaderValue.new_logical value = some (.Logical b) ↔
      ((∀ j : Nat, j ≠ 19 → value.get? j = some SPACE_U8 ∨ value.get? j = none) ∧
       ((value.get? 19 = some T_U8 ∧ b = true) ∨
        (value.get? 19 = some F_U8 ∧ b = false) ∨
        (value.get? 19 = none ∧ b = false))) := by
  unfold HeaderValue.new_logical
  rw [logicalLoop_some_iff value 0 false b (by omega)]
  constructor
  · rintro ⟨hall, hcol⟩
    refine ⟨fun j hj => hall j (by omega), ?_⟩
    simpa using hcol
  · rintro ⟨hall, hcol⟩
    refine ⟨fun j hj => hall j (by omega), ?_⟩
    simpa using hcol

/-- C10 (counterexample): the schedule in which both threads pass the cache
check before either decodes leads to two decode passes over the file, not
exactly one. -/
theorem c10_counterexample :
    (raceRun 7 [true, false, true, true, false, false] raceInit).decodeCount = 2 ∧
      (2 : Nat) ≠ 1 := by
  refine ⟨by decide, by decide⟩

/-- The one-thread step preserves the populated-cache invariant: with a full
cache, zero decode count and neither thread between check and write, a step
keeps all of that (the cache check sends a thread straight to done). -/
theorem raceStep_preserves_cached (v : Nat) (s : DecodeRace) (t : Bool)
    (h : s.cache.isSome = true ∧ s.decodeCount = 0 ∧
      s.pc1 ≠ 1 ∧ s.pc1 ≠ 2 ∧ s.pc2 ≠ 1 ∧ s.pc2 ≠ 2) :
    (raceStep v s t).cache.isSome = true ∧ (raceStep v s t).decodeCount = 0 ∧
      (raceStep v s t).pc1 ≠ 1 ∧ (raceStep v s t).pc1 ≠ 2 ∧
      (raceStep v s t).pc2 ≠ 1 ∧ (raceStep v s t).pc2 ≠ 2 := by
  obtain ⟨hc, hd, h11, h12, h21, h22⟩ := h
  cases t with
  | true =>
    match hpc : s.pc1 with
    | 0 => simp_all [raceStep, threadStep]
    | 1 => exact absurd hpc h11
    | 2 => exact absurd hpc h12
    | n + 3 => simp_all [raceStep, threadStep]
  | false =>
    match hpc : s.pc2 with
    | 0 => simp_all [raceStep, threadStep]
    | 1 => exact absurd hpc h21
    | 2 => exact absurd hpc h22
    | n + 3 => simp_all [raceStep, threadStep]

/-- Runs preserve the populated-cache invariant. -/
theorem raceRun_preserves_cached (v : Nat) (sched : List Bool) :
    ∀ s : DecodeRace,
      (s.cache.isSome = true ∧ s.decodeCount = 0 ∧
        s.pc1 ≠ 1 ∧ s.pc1 ≠ 2 ∧ s.pc2 ≠ 1 ∧ s.pc2 ≠ 2) →
      (raceRun v sched s).cache.isSome = true ∧ (raceRun v sched s).decodeCount = 0 ∧
        (raceRun v sched s).pc1 ≠ 1 ∧ (raceRun v sched s).pc1 ≠ 2 ∧
        (raceRun v sched s).pc2 ≠ 1 ∧ (raceRun v sched s).pc2 ≠ 2 := by
  induction sched with
  | nil => intro s h; exact h
  | cons t rest ih =>
    intro s h
    exact ih (raceStep v s t) (raceStep_preserves_cached v s t h)

/-- The one-thread step preserves the decode-count bound
`decodeCount ≤ pcContrib pc1 + pcContrib pc2`. -/
theorem raceStep_preserves_bound (v : Nat) (s : DecodeRace) (t : Bool)
    (h : s.decodeCount ≤ pcContrib s.pc1 + pcContrib s.pc2) :
    (raceStep v s t).decodeCount ≤
      pcContrib (raceStep v s t).pc1 + pcContrib (raceStep v s t).pc2 := by
  cases t with
  | true =>
    match hpc : s.pc1 with
    | 0 =>
      by_cases hc : s.cache.isSome <;>
        simp_all [raceStep, threadStep, pcContrib] <;> try omega
    | 1 => simp_all [raceStep, threadStep, pcContrib]; try omega
    | 2 => simp_all [raceStep, threadStep, pcContrib]; try omega
    | n + 3 => simp_all [raceStep, threadStep, pcContrib]; try omega
  | false =>
    match hpc : s.pc2 with
    | 0 =>
      by_cases hc : s.cache.isSome <;>
        simp_all [raceStep, threadStep, pcContrib] <;> try omega
    | 1 => simp_all [raceStep, threadStep, pcContrib]; try omega
    | 2 => simp_all [raceStep, threadStep, pcContrib]; try omega
    | n + 3 => simp_all [raceStep, threadStep, pcContrib]; try omega

/-- Runs preserve the decode-count bound. -/
theorem raceRun_preserves_bound (v : Nat) (sched : List Bool) :
    ∀ s : DecodeRace, s.decodeCount ≤ pcContrib s.pc1 + pcContrib s.pc2 →
      (raceRun v sched s).decodeCount ≤
        pcContrib (raceRun v sched s).pc1 + pcContrib (raceRun v sched s).pc2 := by
  induction sched with
  | nil => intro s h; exact h
  | cons t rest ih =>
    intro s h
    exact ih (raceStep v s t) (raceStep_preserves_bound v s t h)

/-- C10 (amended): exactly one decode happens only when the first accesses do
not interleave: when one thread completes check–decode–write before the other
checks, the total is one decode and the second thread serves from the cache;
any thread that starts after an array has been published performs no decode
at all; and in every schedule each thread decodes at most once, so at most
two decode passes occur — but interleaved first accesses do reach two (each
write replacing the cache slot), not exactly one. -/
theorem c10_amended :
    (∀ v : Nat, raceRun v [true, true, true, false] raceInit =
      ⟨some v, 1, 3, 3⟩) ∧
    (∀ (v w : Nat) (sched : List Bool),
       (raceRun v sched ⟨some w, 0, 0, 0⟩).decodeCount = 0) ∧
    (∀ (v : Nat) (sched : List Bool),
       (raceRun v sched raceInit).decodeCount ≤ 2) := by
  refine ⟨fun v => rfl, ?_, ?_⟩
  · intro v w sched
    refine (raceRun_preserves_cached v sched ⟨some w, 0, 0, 0⟩ ?_).2.1
    refine ⟨rfl, rfl, ?_, ?_, ?_, ?_⟩ <;> simp
  · intro v sched
    have h := raceRun_preserves_bound v sched raceInit (by decide)
    have h1 : pcContrib (raceRun v sched raceInit).pc1 ≤ 1 := by
      unfold pcContrib; split <;> omega
    have h2 : pcContrib (raceRun v sched raceInit).pc2 ≤ 1 := by
      unfold pcContrib; split <;> omega
    omega

end Fitrs
